import Mathlib

/-!
Verification of the streaming decision-and-parsing pipeline of the
sigma-agent-base backend (python-core).

The development shallowly embeds the code of
`app/services/llm.py` (`TagParser.process_chunk`, `TagParser.flush`,
`TagParser._clean_tag_artifacts`, `generate_stream`,
`generate_with_thinking`), `app/services/router.py` (`classify_query`)
and the mode/tier resolution and SSE accumulation logic of
`app/api.py` (`chat`).  Python strings are modelled as `List Char`;
Python's `str.find` / slicing / `strip` / `lower` are modelled by
executable Lean functions with the same semantics on the ASCII inputs
the parser manipulates.  The `while True` loop of `process_chunk` is
modelled by a fuel-indexed structural recursion; every iteration of the
Python loop that continues consumes at least one buffered character, so
fuel equal to the buffer length always suffices.
-/

namespace SigmaAgent

/-- ASCII whitespace recognised by Python's `str.strip()`
(space, tab, newline, carriage return, vertical tab, form feed). -/
def isPySpace (c : Char) : Bool :=
  c = ' ' || c = '\t' || c = '\n' || c = '\r' || c = '\x0b' || c = '\x0c'

/-- Python `str.strip()`: remove leading and trailing whitespace. -/
def pyStrip (s : List Char) : List Char :=
  ((s.dropWhile isPySpace).reverse.dropWhile isPySpace).reverse

/-- Python `str.lower()` (ASCII). -/
def pyLower (s : List Char) : List Char := s.map Char.toLower

/-- Python `hay.find(needle)`: index of the first occurrence of `needle`
in `hay`, `none` when absent (Python returns `-1`). -/
def strFind (hay needle : List Char) : Option Nat :=
  if needle.isPrefixOf hay then some 0
  else
    match hay with
    | [] => none
    | _ :: t => (strFind t needle).map (· + 1)

/-- Python `needle in hay` substring test. -/
def containsSub (hay needle : List Char) : Bool := (strFind hay needle).isSome

/-- The earliest occurrence among a list of tag variants, mirroring the
`for tag in ...: pos = buffer.find(tag)` scan of `process_chunk`
(a later variant replaces the current best only at a strictly smaller
position). -/
def bestTag (buf : List Char) (tags : List (List Char)) :
    Option (Nat × List Char) :=
  tags.foldl
    (fun acc t =>
      match strFind buf t with
      | none => acc
      | some p =>
        match acc with
        | none => some (p, t)
        | some (q, u) => if p < q then some (p, t) else some (q, u))
    none

/-- `TagParser.THINKING_OPEN_VARIANTS`. -/
def THINKING_OPEN_VARIANTS : List (List Char) :=
  [("<thinking>").toList, ("<think>").toList]

/-- `TagParser.THINKING_CLOSE_VARIANTS`. -/
def THINKING_CLOSE_VARIANTS : List (List Char) :=
  [("</thinking>").toList, ("</think>").toList]

/-- `TagParser.ANSWER_OPEN`. -/
def ANSWER_OPEN : List Char := ("<answer>").toList

/-- `TagParser.ANSWER_CLOSE`. -/
def ANSWER_CLOSE : List Char := ("</answer>").toList

/-- `TagParser.MAX_TAG_LEN`: maximum length over the answer tags and all
thinking variants (evaluates to 11, the length of `</thinking>`). -/
def MAX_TAG_LEN : Nat :=
  ((THINKING_OPEN_VARIANTS ++ THINKING_CLOSE_VARIANTS).map List.length).foldl
    max (max ANSWER_OPEN.length ANSWER_CLOSE.length)

/-- `max(len(t) for t in THINKING_CLOSE_VARIANTS)` used by the
`in_thinking` partial-yield branch (evaluates to 11). -/
def maxCloseLen : Nat :=
  (THINKING_CLOSE_VARIANTS.map List.length).foldl max 0

/-- The three states of `TagParser.state`. -/
inductive PState
  | outside
  | in_thinking
  | in_answer
deriving DecidableEq, Repr

/-- The section labels carried by emitted events. -/
inductive Section
  | thinking
  | answer
  | error
deriving DecidableEq, Repr

/-- A parsed section event `{"section": ..., "content": ...}` as returned
by `process_chunk` / `flush`. -/
structure Ev where
  sect : Section
  content : List Char
deriving DecidableEq, Repr

/-- The mutable state of a `TagParser` instance. -/
structure TagParser where
  state : PState
  buffer : List Char
  current_content : List Char
  has_yielded_answer : Bool
deriving DecidableEq, Repr

/-- `TagParser.__init__`. -/
def TagParser.init : TagParser :=
  { state := .outside, buffer := [], current_content := [],
    has_yielded_answer := false }

/-- Result of running the `while True` loop of `process_chunk`. -/
structure LoopOut where
  events : List Ev
  state : PState
  buffer : List Char
  current_content : List Char
  has_yielded_answer : Bool
deriving DecidableEq, Repr

/-- A conditionally emitted event (`if ...: results.append(...)`). -/
def guardEv (emit : Bool) (s : Section) (content : List Char) : List Ev :=
  if emit then [⟨s, content⟩] else []

/-- The `while True` loop of `TagParser.process_chunk`, indexed by fuel.
Each Python iteration that sets `made_progress` strips a matched tag and
therefore shortens the buffer by at least one character, so fuel equal
to the buffer length always reaches the `break`. -/
def runLoopF : Nat → PState → List Char → List Char → Bool → LoopOut
  | 0, st, buf, cc, ha => ⟨[], st, buf, cc, ha⟩
  | fuel + 1, st, buf, cc, ha =>
    match st with
    | .outside =>
      match bestTag buf THINKING_OPEN_VARIANTS, strFind buf ANSWER_OPEN with
      | some (tp, ttag), none =>
        let emitPre := decide (0 < tp) && !(pyStrip (buf.take tp)).isEmpty
        let r := runLoopF fuel .in_thinking (buf.drop (tp + ttag.length)) []
          (ha || emitPre)
        { r with events :=
            guardEv emitPre .answer (pyStrip (buf.take tp)) ++ r.events }
      | some (tp, ttag), some ap =>
        if tp < ap then
          let emitPre := decide (0 < tp) && !(pyStrip (buf.take tp)).isEmpty
          let r := runLoopF fuel .in_thinking (buf.drop (tp + ttag.length)) []
            (ha || emitPre)
          { r with events :=
              guardEv emitPre .answer (pyStrip (buf.take tp)) ++ r.events }
        else
          let emitPre := decide (0 < ap) && !(pyStrip (buf.take ap)).isEmpty
          let r := runLoopF fuel .in_answer (buf.drop (ap + ANSWER_OPEN.length))
            [] (ha || emitPre)
          { r with events :=
              guardEv emitPre .answer (pyStrip (buf.take ap)) ++ r.events }
      | none, some ap =>
        let emitPre := decide (0 < ap) && !(pyStrip (buf.take ap)).isEmpty
        let r := runLoopF fuel .in_answer (buf.drop (ap + ANSWER_OPEN.length))
          [] (ha || emitPre)
        { r with events :=
            guardEv emitPre .answer (pyStrip (buf.take ap)) ++ r.events }
      | none, none =>
        if MAX_TAG_LEN < buf.length then
          let bufEnd := buf.drop (buf.length - MAX_TAG_LEN)
          let could_be_tag := bufEnd.isPrefixOf ANSWER_OPEN
            || THINKING_OPEN_VARIANTS.any fun t => bufEnd.isPrefixOf t
          if could_be_tag then ⟨[], .outside, buf, cc, ha⟩
          else
            let content := buf.take (buf.length - MAX_TAG_LEN)
            let emit := !(pyStrip content).isEmpty
            ⟨guardEv emit .answer content, .outside,
              buf.drop (buf.length - MAX_TAG_LEN), cc, ha || emit⟩
        else ⟨[], .outside, buf, cc, ha⟩
    | .in_thinking =>
      match bestTag buf THINKING_CLOSE_VARIANTS with
      | some (tp, ttag) =>
        let emit := !(buf.take tp).isEmpty
        let r := runLoopF fuel .outside (buf.drop (tp + ttag.length)) [] ha
        { r with events := guardEv emit .thinking (buf.take tp) ++ r.events }
      | none =>
        if maxCloseLen < buf.length then
          let bufEnd := buf.drop (buf.length - maxCloseLen)
          let could := THINKING_CLOSE_VARIANTS.any fun t => bufEnd.isPrefixOf t
          if could then ⟨[], .in_thinking, buf, cc, ha⟩
          else
            let content := buf.take (buf.length - maxCloseLen)
            let emit := !content.isEmpty
            ⟨guardEv emit .thinking content, .in_thinking,
              buf.drop (buf.length - maxCloseLen), cc, ha⟩
        else ⟨[], .in_thinking, buf, cc, ha⟩
    | .in_answer =>
      match strFind buf ANSWER_CLOSE with
      | some p =>
        let emit := !(buf.take p).isEmpty
        let r := runLoopF fuel .outside (buf.drop (p + ANSWER_CLOSE.length)) []
          (ha || emit)
        { r with events := guardEv emit .answer (buf.take p) ++ r.events }
      | none =>
        if ANSWER_CLOSE.length < buf.length then
          let bufEnd := buf.drop (buf.length - ANSWER_CLOSE.length)
          let could := bufEnd.isPrefixOf ANSWER_CLOSE
          if could then ⟨[], .in_answer, buf, cc, ha⟩
          else
            let content := buf.take (buf.length - ANSWER_CLOSE.length)
            let emit := !content.isEmpty
            ⟨guardEv emit .answer content, .in_answer,
              buf.drop (buf.length - ANSWER_CLOSE.length), cc, ha || emit⟩
        else ⟨[], .in_answer, buf, cc, ha⟩

/-- `TagParser.process_chunk`: append the chunk to the buffer and run the
tag-scanning loop; an empty chunk returns immediately. -/
def process_chunk (p : TagParser) (chunk : List Char) :
    List Ev × TagParser :=
  if chunk.isEmpty then ([], p)
  else
    let buf := p.buffer ++ chunk
    let r := runLoopF buf.length p.state buf p.current_content
      p.has_yielded_answer
    (r.events, ⟨r.state, r.buffer, r.current_content, r.has_yielded_answer⟩)

/-- The artifact list of `TagParser._clean_tag_artifacts`. -/
def TAG_ARTIFACTS : List (List Char) :=
  [("</answer>").toList, ("</thinking>").toList,
   ("<answer>").toList, ("<thinking>").toList,
   ("</answer").toList, ("</thinking").toList,
   ("<answer").toList, ("<thinking").toList,
   ("ANSWER").toList, ("THINKING").toList]

/-- `while cleaned.lower().startswith(artifact.lower()):
cleaned = cleaned[len(artifact):].strip()`, fuelled (each iteration
shortens the text by at least one character). -/
def stripArtifactStart : Nat → List Char → List Char → List Char
  | 0, _, s => s
  | fuel + 1, art, s =>
    if (pyLower art).isPrefixOf (pyLower s) then
      stripArtifactStart fuel art (pyStrip (s.drop art.length))
    else s

/-- `while cleaned.lower().endswith(artifact.lower()):
cleaned = cleaned[:-len(artifact)].strip()`, fuelled. -/
def stripArtifactEnd : Nat → List Char → List Char → List Char
  | 0, _, s => s
  | fuel + 1, art, s =>
    if (pyLower art).isSuffixOf (pyLower s) then
      stripArtifactEnd fuel art (pyStrip (s.take (s.length - art.length)))
    else s

/-- The four literals matched by the regular expression
`</?(?:answer|thinking)>` (case-insensitive). -/
def TAG_PATTERNS : List (List Char) :=
  [("<answer>").toList, ("</answer>").toList,
   ("<thinking>").toList, ("</thinking>").toList]

/-- Length of the tag pattern matching at the head of `s`, if any. -/
def matchTagAt (s : List Char) : Option Nat :=
  TAG_PATTERNS.foldl
    (fun acc t =>
      match acc with
      | some n => some n
      | none =>
        if (pyLower t).isPrefixOf (pyLower s) then some t.length else none)
    none

/-- `re.sub(r'</?(?:answer|thinking)>', '', s, flags=re.IGNORECASE)`:
remove every (non-overlapping, left-to-right) tag occurrence. -/
def removeTagPatterns : Nat → List Char → List Char
  | 0, s => s
  | _ + 1, [] => []
  | fuel + 1, c :: rest =>
    match matchTagAt (c :: rest) with
    | some n => removeTagPatterns fuel ((c :: rest).drop n)
    | none => c :: removeTagPatterns fuel rest

/-- `TagParser._clean_tag_artifacts`. -/
def clean_tag_artifacts (text : List Char) : List Char :=
  if text.isEmpty then []
  else
    let cleaned := pyStrip text
    let cleaned := TAG_ARTIFACTS.foldl
      (fun c art =>
        stripArtifactEnd (c.length + 1) art
          (stripArtifactStart (c.length + 1) art c))
      cleaned
    pyStrip (removeTagPatterns cleaned.length cleaned)

/-- One guarded flush emission: `if remaining: cleaned = clean(remaining);
if cleaned: results.append({...})`. -/
def flushEv (s : Section) (remaining : List Char) : List Ev :=
  if remaining.isEmpty then []
  else if (clean_tag_artifacts remaining).isEmpty then []
  else [⟨s, clean_tag_artifacts remaining⟩]

/-- `TagParser.flush`: emit the remaining buffered content (with the
rescue rule when the stream ends in `in_thinking` and no answer was ever
yielded) and reset the parser. -/
def flush (p : TagParser) : List Ev × TagParser :=
  let evs :=
    if p.state = .in_thinking ∧
        (p.current_content ≠ [] ∨ p.buffer ≠ []) then
      if p.has_yielded_answer then
        flushEv .thinking (pyStrip (p.current_content ++ p.buffer))
      else
        flushEv .answer (pyStrip (p.current_content ++ p.buffer))
    else if p.state = .in_answer ∧
        (p.current_content ≠ [] ∨ p.buffer ≠ []) then
      flushEv .answer (pyStrip (p.current_content ++ p.buffer))
    else if p.buffer ≠ [] then
      flushEv .answer (pyStrip p.buffer)
    else []
  (evs, TagParser.init)

/-- Feed a list of chunks through one parser instance, collecting events
in order. -/
def runChunks (p : TagParser) (chunks : List (List Char)) :
    List Ev × TagParser :=
  chunks.foldl
    (fun acc c =>
      let r := process_chunk acc.2 c
      (acc.1 ++ r.1, r.2))
    ([], p)

/-- A full parser session: feed all chunks to a fresh parser, then flush. -/
def feedAll (chunks : List (List Char)) : List Ev :=
  let r := runChunks TagParser.init chunks
  r.1 ++ (flush r.2).1

/-- Concatenated content of an event list, in emission order. -/
def transcript (evs : List Ev) : List Char :=
  (evs.map Ev.content).flatten

/-! ### The generation orchestrator (`generate_stream`, `generate_with_thinking`) -/

/-- The kind tag of the dicts yielded by `generate_stream`
(`{"type": "thinking" | "content", "content": ...}`). -/
inductive ChunkKind
  | thinkingKind
  | contentKind
deriving DecidableEq, Repr

/-- An item yielded by `generate_stream`. -/
structure StreamItem where
  kind : ChunkKind
  content : List Char
deriving DecidableEq, Repr

/-- One raw delta from the upstream provider stream.  The Python code
probes several duck-typed spellings (`delta.thinking`, `delta.thought`,
`delta["thinking"]`, ...); they collapse to one optional thinking text
and one optional content text per delta. -/
structure Delta where
  thinking : Option (List Char)
  content : Option (List Char)
deriving DecidableEq, Repr

/-- The text of the inline error chunk produced by the `except` clause of
`generate_stream`: `f"\n\n[Error: {str(e)}]"`. -/
def errText (e : List Char) : List Char :=
  ("\n\n[Error: ").toList ++ e ++ ("]").toList

/-- `generate_stream`: forward each nonempty thinking delta and each
nonempty content delta in order.  An upstream failure (modelled as the
source ending with `some e`) is caught by the `except` clause, which
yields one final *content* chunk carrying the inline error text — not an
error event — and ends the stream. -/
def generate_stream (deltas : List Delta) (err : Option (List Char)) :
    List StreamItem :=
  ((deltas.map fun d =>
      (match d.thinking with
       | some t => if t.isEmpty then [] else [StreamItem.mk .thinkingKind t]
       | none => [])
      ++ (match d.content with
       | some c => if c.isEmpty then [] else [StreamItem.mk .contentKind c]
       | none => [])).flatten)
  ++ (match err with
      | some e => [StreamItem.mk .contentKind (errText e)]
      | none => [])

/-- An event yielded by `generate_with_thinking`
(`{"section": ..., "content": ..., "full": ...}`). -/
structure OutEv where
  sect : Section
  content : List Char
  full : List Char
deriving DecidableEq, Repr

/-- Forward parsed sections to the caller, skipping `thinking` sections
when `include_thinking` is false (the Python `continue`). -/
def emitParsed (include_thinking : Bool) (full : List Char)
    (evs : List Ev) : List OutEv :=
  evs.foldr
    (fun ev acc =>
      if ev.sect = .thinking ∧ include_thinking = false then acc
      else ⟨ev.sect, ev.content, full⟩ :: acc)
    []

/-- One iteration of the `async for chunk_dict in generate_stream(...)`
loop of `generate_with_thinking`: the accumulator carries the events
yielded so far, the parser, and `full_response`. -/
def gwtStep (include_thinking : Bool)
    (acc : List OutEv × TagParser × List Char) (item : StreamItem) :
    List OutEv × TagParser × List Char :=
  match item.kind with
  | .thinkingKind =>
    if include_thinking then
      (acc.1 ++ [⟨.thinking, item.content, acc.2.2⟩], acc.2.1, acc.2.2)
    else acc
  | .contentKind =>
    if item.content.isEmpty then acc
    else
      let full := acc.2.2 ++ item.content
      let r := process_chunk acc.2.1 item.content
      (acc.1 ++ emitParsed include_thinking full r.1, r.2, full)

/-- `generate_with_thinking` on an already-produced upstream item list:
feed every content chunk through one `TagParser`, forward native
thinking chunks directly, then flush the parser at stream end. -/
def generate_with_thinking (items : List StreamItem)
    (include_thinking : Bool) : List OutEv :=
  let acc := items.foldl (gwtStep include_thinking)
    ([], TagParser.init, [])
  acc.1 ++ emitParsed include_thinking acc.2.2 (flush acc.2.1).1

/-- The composed pipeline: `generate_with_thinking` consuming
`generate_stream` over an upstream delta source that may fail. -/
def generation_pipeline (deltas : List Delta) (err : Option (List Char))
    (include_thinking : Bool) : List OutEv :=
  generate_with_thinking (generate_stream deltas err) include_thinking

/-- The per-session accumulators of `chat.event_stream` in `app/api.py`:
`thinking_content` and `answer_content` are extended by the content of
each received chunk according to its section. -/
def accumulate_sections (evs : List OutEv) : List Char × List Char :=
  evs.foldl
    (fun acc ev =>
      match ev.sect with
      | .thinking => (acc.1 ++ ev.content, acc.2)
      | .answer => (acc.1, acc.2 ++ ev.content)
      | .error => acc)
    ([], [])

/-! ### Query classification (`router.py`) and mode resolution (`api.py`) -/

/-- `QueryType = Literal["simple", "factual", "complex"]`. -/
inductive QueryType
  | simple
  | factual
  | complex
deriving DecidableEq, Repr

/-- The keyword scan of `classify_query` on the upstream reply:
`result = content.strip().lower()`, then case-insensitive substring
priority `simple`, `factual`, default `complex`. -/
def parse_classification (reply : List Char) : QueryType :=
  let result := pyLower (pyStrip reply)
  if containsSub result (("simple").toList) then .simple
  else if containsSub result (("factual").toList) then .factual
  else .complex

/-- `classify_query` over the outcome of the upstream call: a raised
exception (`.error`) and a `None` reply content (which raises inside the
`try` when `.strip()` is called) are both caught and default to
`complex`; a returned string is parsed by keyword. -/
def classify_query (upstream : Except (List Char) (Option (List Char))) :
    QueryType :=
  match upstream with
  | .error _ => .complex
  | .ok none => .complex
  | .ok (some reply) => parse_classification reply

/-- The model tiers of `MODEL_TIERS` in `app/core/config.py`. -/
inductive Tier
  | pro
  | auto
  | fast
deriving DecidableEq, Repr

/-- `MODEL_TIERS`: the concrete model id configured for each tier. -/
def MODEL_TIERS : Tier → List Char
  | .pro => ("gemini/gemini-3-pro-preview").toList
  | .auto => ("gemini/gemini-3-flash-preview").toList
  | .fast => ("gemini/gemini-3-flash-preview").toList

/-- STEP 2 of `chat` in `app/api.py`: determine base tier and thinking
behaviour from the caller mode and the classified query type.  The
Python code branches on the mode string, with any string other than
`"auto"` and `"pro"` falling to the `fast` branch. -/
def resolve_mode_tier (mode : List Char) (qt : QueryType) : Tier × Bool :=
  if mode = ("auto").toList then
    if qt = QueryType.simple then (.fast, false) else (.auto, true)
  else if mode = ("pro").toList then (.pro, true)
  else (.fast, false)

/-! ### Supporting lemmas -/

theorem pyStrip_ne_nil {s : List Char} (h : pyStrip s ≠ []) : s ≠ [] := by
  intro hs
  subst hs
  exact h rfl

theorem ne_nil_of_isEmpty_eq_false {l : List Char}
    (h : l.isEmpty = false) : l ≠ [] := by
  intro hl
  subst hl
  simp at h

theorem mem_guardEv {emit : Bool} {s : Section} {content : List Char}
    {ev : Ev} (h : ev ∈ guardEv emit s content) :
    ev = ⟨s, content⟩ ∧ emit = true := by
  unfold guardEv at h
  split at h
  · simp only [List.mem_singleton] at h
    exact ⟨h, by assumption⟩
  · simp at h

theorem mem_flushEv {s : Section} {remaining : List Char} {ev : Ev}
    (h : ev ∈ flushEv s remaining) : ev.sect = s ∧ ev.content ≠ [] := by
  unfold flushEv at h
  split at h
  · simp at h
  · split at h
    · simp at h
    · simp only [List.mem_singleton] at h
      subst h
      refine ⟨rfl, ?_⟩
      simp_all [List.isEmpty_iff]

theorem strFind_isSome_of_infix {hay nd : List Char} (h : nd <:+: hay) :
    (strFind hay nd).isSome := by
  induction hay with
  | nil =>
    rw [List.infix_nil] at h
    subst h
    simp [strFind]
  | cons c t ih =>
    rw [List.infix_cons_iff] at h
    unfold strFind
    rcases h with h | h
    · rw [if_pos (List.isPrefixOf_iff_prefix.mpr h)]
      simp
    · split
      · simp
      · simpa using ih h

theorem suffix_drop_of_le {t b : List Char} {k : Nat} (h : t <:+ b)
    (hlen : t.length ≤ b.length - k) : t <:+ b.drop k := by
  rcases h with ⟨s, rfl⟩
  by_cases hk : k ≤ s.length
  · rw [List.drop_append_of_le_length hk]
    exact ⟨s.drop k, rfl⟩
  · have hlen' : t.length ≤ s.length + t.length - k := by
      simpa using hlen
    have ht : t.length = 0 := by omega
    rw [List.length_eq_zero.mp ht]
    exact List.nil_suffix

theorem runLoopF_events (fuel : Nat) :
    ∀ (st : PState) (buf cc : List Char) (ha : Bool) (ev : Ev),
      ev ∈ (runLoopF fuel st buf cc ha).events →
      ev.content ≠ [] ∧ ev.sect ≠ Section.error := by
  induction fuel with
  | zero =>
    intro st buf cc ha ev h
    simp [runLoopF] at h
  | succ n ih =>
    intro st buf cc ha ev h
    cases st
    case outside =>
      simp only [runLoopF] at h
      split at h
      case h_1 tp ttag heq1 heq2 =>
        rcases List.mem_append.mp h with h | h
        · obtain ⟨rfl, hemit⟩ := mem_guardEv h
          simp only [Bool.and_eq_true, Bool.not_eq_true'] at hemit
          exact ⟨ne_nil_of_isEmpty_eq_false hemit.2, by simp⟩
        · exact ih _ _ _ _ _ h
      case h_2 tp ttag ap heq1 heq2 =>
        split at h <;>
        · rcases List.mem_append.mp h with h | h
          · obtain ⟨rfl, hemit⟩ := mem_guardEv h
            simp only [Bool.and_eq_true, Bool.not_eq_true'] at hemit
            exact ⟨ne_nil_of_isEmpty_eq_false hemit.2, by simp⟩
          · exact ih _ _ _ _ _ h
      case h_3 ap heq1 heq2 =>
        rcases List.mem_append.mp h with h | h
        · obtain ⟨rfl, hemit⟩ := mem_guardEv h
          simp only [Bool.and_eq_true, Bool.not_eq_true'] at hemit
          exact ⟨ne_nil_of_isEmpty_eq_false hemit.2, by simp⟩
        · exact ih _ _ _ _ _ h
      case h_4 heq1 heq2 =>
        split at h
        · split at h
          · simp at h
          · obtain ⟨rfl, hemit⟩ := mem_guardEv h
            simp only [Bool.not_eq_true'] at hemit
            exact ⟨pyStrip_ne_nil (ne_nil_of_isEmpty_eq_false hemit), by simp⟩
        · simp at h
    case in_thinking =>
      simp only [runLoopF] at h
      split at h
      case h_1 tp ttag heq =>
        rcases List.mem_append.mp h with h | h
        · obtain ⟨rfl, hemit⟩ := mem_guardEv h
          simp only [Bool.not_eq_true'] at hemit
          exact ⟨ne_nil_of_isEmpty_eq_false hemit, by simp⟩
        · exact ih _ _ _ _ _ h
      case h_2 heq =>
        split at h
        · split at h
          · simp at h
          · obtain ⟨rfl, hemit⟩ := mem_guardEv h
            simp only [Bool.not_eq_true'] at hemit
            exact ⟨ne_nil_of_isEmpty_eq_false hemit, by simp⟩
        · simp at h
    case in_answer =>
      simp only [runLoopF] at h
      split at h
      case h_1 p heq =>
        rcases List.mem_append.mp h with h | h
        · obtain ⟨rfl, hemit⟩ := mem_guardEv h
          simp only [Bool.not_eq_true'] at hemit
          exact ⟨ne_nil_of_isEmpty_eq_false hemit, by simp⟩
        · exact ih _ _ _ _ _ h
      case h_2 heq =>
        split at h
        · split at h
          · simp at h
          · obtain ⟨rfl, hemit⟩ := mem_guardEv h
            simp only [Bool.not_eq_true'] at hemit
            exact ⟨ne_nil_of_isEmpty_eq_false hemit, by simp⟩
        · simp at h

theorem process_chunk_events {p : TagParser} {chunk : List Char} {ev : Ev}
    (h : ev ∈ (process_chunk p chunk).1) :
    ev.content ≠ [] ∧ ev.sect ≠ Section.error := by
  unfold process_chunk at h
  split at h
  · simp at h
  · exact runLoopF_events _ _ _ _ _ _ h

theorem flush_events {p : TagParser} {ev : Ev} (h : ev ∈ (flush p).1) :
    ev.content ≠ [] ∧
    (ev.sect = Section.thinking ∨ ev.sect = Section.answer) := by
  unfold flush at h
  simp only at h
  split at h
  · split at h
    · obtain ⟨hs, hc⟩ := mem_flushEv h
      exact ⟨hc, Or.inl hs⟩
    · obtain ⟨hs, hc⟩ := mem_flushEv h
      exact ⟨hc, Or.inr hs⟩
  · split at h
    · obtain ⟨hs, hc⟩ := mem_flushEv h
      exact ⟨hc, Or.inr hs⟩
    · split at h
      · obtain ⟨hs, hc⟩ := mem_flushEv h
        exact ⟨hc, Or.inr hs⟩
      · simp at h

theorem mem_emitParsed {inc : Bool} {full : List Char} {evs : List Ev}
    {ev : OutEv} (h : ev ∈ emitParsed inc full evs) :
    ∃ e ∈ evs, ev = ⟨e.sect, e.content, full⟩ ∧
      ¬(e.sect = Section.thinking ∧ inc = false) := by
  induction evs with
  | nil => simp [emitParsed] at h
  | cons e rest ih =>
    simp only [emitParsed, List.foldr_cons] at h
    split at h
    · obtain ⟨x, hx, hev, hni⟩ := ih h
      exact ⟨x, List.mem_cons_of_mem _ hx, hev, hni⟩
    · rcases List.mem_cons.mp h with h | h
      · exact ⟨e, List.mem_cons_self _ _, h, by assumption⟩
      · obtain ⟨x, hx, hev, hni⟩ := ih h
        exact ⟨x, List.mem_cons_of_mem _ hx, hev, hni⟩

theorem gwt_foldl_sections (inc : Bool) (items : List StreamItem) :
    ∀ acc : List OutEv × TagParser × List Char,
      (∀ ev ∈ acc.1, ev.sect ≠ Section.error ∧
        (inc = false → ev.sect ≠ Section.thinking)) →
      ∀ ev ∈ (items.foldl (gwtStep inc) acc).1,
        ev.sect ≠ Section.error ∧
        (inc = false → ev.sect ≠ Section.thinking) := by
  induction items with
  | nil =>
    intro acc hacc
    simpa using hacc
  | cons item rest ih =>
    intro acc hacc
    rw [List.foldl_cons]
    refine ih _ ?_
    intro ev hev
    unfold gwtStep at hev
    split at hev
    · split at hev
      · rcases List.mem_append.mp hev with h | h
        · exact hacc _ h
        · simp only [List.mem_singleton] at h
          subst h
          refine ⟨by simp, fun hinc => ?_⟩
          simp_all
      · exact hacc _ hev
    · split at hev
      · exact hacc _ hev
      · rcases List.mem_append.mp hev with h | h
        · exact hacc _ h
        · obtain ⟨e, he, rfl, hni⟩ := mem_emitParsed h
          refine ⟨(process_chunk_events he).2, fun hinc hsec => ?_⟩
          exact hni ⟨hsec, hinc⟩

theorem generate_with_thinking_sections {items : List StreamItem}
    {inc : Bool} {ev : OutEv} (h : ev ∈ generate_with_thinking items inc) :
    ev.sect ≠ Section.error ∧ (inc = false → ev.sect ≠ Section.thinking) := by
  unfold generate_with_thinking at h
  rcases List.mem_append.mp h with h | h
  · exact gwt_foldl_sections inc items _ (by simp) _ h
  · obtain ⟨e, he, rfl, hni⟩ := mem_emitParsed h
    have hfl := flush_events he
    refine ⟨?_, fun hinc hsec => hni ⟨hsec, hinc⟩⟩
    rcases hfl.2 with hs | hs <;> simp [hs]

theorem accumulate_fst_nil {evs : List OutEv}
    (h : ∀ ev ∈ evs, ev.sect ≠ Section.thinking) :
    (accumulate_sections evs).1 = [] := by
  suffices H : ∀ init : List Char × List Char,
      (evs.foldl
        (fun acc ev =>
          match ev.sect with
          | .thinking => (acc.1 ++ ev.content, acc.2)
          | .answer => (acc.1, acc.2 ++ ev.content)
          | .error => acc)
        init).1 = init.1 by
    simpa [accumulate_sections] using H ([], [])
  induction evs with
  | nil => intro init; rfl
  | cons e rest ih =>
    intro init
    rw [List.foldl_cons]
    have he := h e (List.mem_cons_self _ _)
    have ih' := ih (fun ev hev => h ev (List.mem_cons_of_mem _ hev))
    rw [ih']
    rcases hs : e.sect with _ | _ | _
    · exact absurd hs he
    · simp [hs]
    · simp [hs]

/-! ### Boundary safety of the no-complete-tag branch -/

/-- The tag variants the scanner searches for in a given state. -/
def reachableTags : PState → List (List Char)
  | .outside => THINKING_OPEN_VARIANTS ++ [ANSWER_OPEN]
  | .in_thinking => THINKING_CLOSE_VARIANTS
  | .in_answer => [ANSWER_CLOSE]

/-- The number of trailing buffer bytes the code withholds in each state
when no complete tag is found (`MAX_TAG_LEN`, `max_close_len`,
`len(ANSWER_CLOSE)`), each at least the length of every tag variant
reachable from that state. -/
def safetyMargin : PState → Nat
  | .outside => MAX_TAG_LEN
  | .in_thinking => maxCloseLen
  | .in_answer => ANSWER_CLOSE.length

/-- No tag variant relevant to the current state occurs in the buffer. -/
def noRelevantTag (st : PState) (buf : List Char) : Bool :=
  (reachableTags st).all fun t => (strFind buf t).isNone

/-- Whether the no-tag branch emits, per state (`outside` checks the
stripped content, the inner states check the raw content). -/
def noTagEmit : PState → List Char → Bool
  | .outside, content => !(pyStrip content).isEmpty
  | .in_thinking, content => !content.isEmpty
  | .in_answer, content => !content.isEmpty

/-- The section label of a no-tag partial yield, per state. -/
def noTagSect : PState → Section
  | .outside => .answer
  | .in_thinking => .thinking
  | .in_answer => .answer

/-- Update of `has_yielded_answer` in the no-tag branch, per state. -/
def noTagHa : PState → Bool → Bool → Bool
  | .outside, ha, emit => ha || emit
  | .in_thinking, ha, _ => ha
  | .in_answer, ha, emit => ha || emit

theorem isPrefixOf_eq_false_of_longer {l m : List Char}
    (h : m.length < l.length) : l.isPrefixOf m = false := by
  by_contra hc
  rw [Bool.not_eq_false] at hc
  have := (List.isPrefixOf_iff_prefix.mp hc).length_le
  omega

theorem isPrefixOf_eq_false_of_find_none {l tag : List Char}
    (hfind : strFind l tag = none)
    (hlen : (l.drop (l.length - tag.length)).length = tag.length) :
    (l.drop (l.length - tag.length)).isPrefixOf tag = false := by
  by_contra hc
  rw [Bool.not_eq_false] at hc
  have hpre := List.isPrefixOf_iff_prefix.mp hc
  have heq := hpre.eq_of_length hlen
  have hsuf : tag <:+ l := heq ▸ List.drop_suffix _ _
  have := strFind_isSome_of_infix hsuf.isInfix
  simp [hfind] at this

/-- When no relevant tag occurs in the buffer, one loop iteration takes
the no-tag branch: it emits at most the prefix that excludes the
trailing `safetyMargin` bytes, retains exactly those trailing bytes, and
leaves the state unchanged. -/
theorem runLoopF_no_tag (st : PState) (buf cc : List Char) (ha : Bool)
    (n : Nat) (h : noRelevantTag st buf = true) :
    runLoopF (n + 1) st buf cc ha =
      ⟨guardEv (noTagEmit st (buf.take (buf.length - safetyMargin st)))
          (noTagSect st) (buf.take (buf.length - safetyMargin st)),
        st, buf.drop (buf.length - safetyMargin st), cc,
        noTagHa st ha
          (noTagEmit st (buf.take (buf.length - safetyMargin st)))⟩ := by
  have hfind : ∀ t ∈ reachableTags st, strFind buf t = none := by
    intro t ht
    exact Option.isNone_iff_eq_none.mp (List.all_eq_true.mp h t ht)
  cases st
  case outside =>
    have h1 : strFind buf (("<thinking>").toList) = none :=
      hfind _ (by simp [reachableTags, THINKING_OPEN_VARIANTS])
    have h2 : strFind buf (("<think>").toList) = none :=
      hfind _ (by simp [reachableTags, THINKING_OPEN_VARIANTS])
    have h3 : strFind buf ANSWER_OPEN = none :=
      hfind _ (by simp [reachableTags])
    have hbt : bestTag buf THINKING_OPEN_VARIANTS = none := by
      simp only [bestTag, THINKING_OPEN_VARIANTS, List.foldl_cons,
        List.foldl_nil, h1, h2]
    simp only [runLoopF, hbt, h3]
    by_cases hml : MAX_TAG_LEN < buf.length
    · rw [if_pos hml]
      have hlenEnd : (buf.drop (buf.length - MAX_TAG_LEN)).length =
          MAX_TAG_LEN := by
        rw [List.length_drop]; omega
      have hA : (buf.drop (buf.length - MAX_TAG_LEN)).isPrefixOf ANSWER_OPEN
          = false :=
        isPrefixOf_eq_false_of_longer (by rw [hlenEnd]; decide)
      have hT1 : (buf.drop (buf.length - MAX_TAG_LEN)).isPrefixOf
          (("<thinking>").toList) = false :=
        isPrefixOf_eq_false_of_longer (by rw [hlenEnd]; decide)
      have hT2 : (buf.drop (buf.length - MAX_TAG_LEN)).isPrefixOf
          (("<think>").toList) = false :=
        isPrefixOf_eq_false_of_longer (by rw [hlenEnd]; decide)
      have hcould : ((buf.drop (buf.length - MAX_TAG_LEN)).isPrefixOf
            ANSWER_OPEN ||
          THINKING_OPEN_VARIANTS.any fun t =>
            (buf.drop (buf.length - MAX_TAG_LEN)).isPrefixOf t) = false := by
        simp only [THINKING_OPEN_VARIANTS, List.any_cons, List.any_nil,
          hA, hT1, hT2, Bool.or_false, Bool.or_self]
      rw [hcould, if_neg (by simp)]
      simp only [safetyMargin, noTagEmit, noTagSect, noTagHa]
    · rw [if_neg hml]
      have h0 : buf.length - MAX_TAG_LEN = 0 := by omega
      simp only [safetyMargin, h0, List.take_zero, List.drop_zero,
        noTagEmit, noTagSect, noTagHa, pyStrip, List.dropWhile_nil,
        List.reverse_nil, List.isEmpty_nil, Bool.not_true, guardEv,
        Bool.false_eq_true, if_false, Bool.or_false]
  case in_thinking =>
    have h1 : strFind buf (("</thinking>").toList) = none :=
      hfind _ (by simp [reachableTags, THINKING_CLOSE_VARIANTS])
    have h2 : strFind buf (("</think>").toList) = none :=
      hfind _ (by simp [reachableTags, THINKING_CLOSE_VARIANTS])
    have hbt : bestTag buf THINKING_CLOSE_VARIANTS = none := by
      simp only [bestTag, THINKING_CLOSE_VARIANTS, List.foldl_cons,
        List.foldl_nil, h1, h2]
    simp only [runLoopF, hbt]
    by_cases hml : maxCloseLen < buf.length
    · rw [if_pos hml]
      have hm11 : maxCloseLen = 11 := by decide
      have hT2 : (buf.drop (buf.length - maxCloseLen)).isPrefixOf
          (("</think>").toList) = false :=
        isPrefixOf_eq_false_of_longer (by
          rw [List.length_drop]
          have h8 : (("</think>").toList).length = 8 := by decide
          omega)
      have hT1 : (buf.drop (buf.length - maxCloseLen)).isPrefixOf
          (("</thinking>").toList) = false := by
        have hm : maxCloseLen = (("</thinking>").toList).length := by decide
        rw [hm]
        refine isPrefixOf_eq_false_of_find_none h1 ?_
        rw [List.length_drop]
        have : (("</thinking>").toList).length = 11 := by decide
        omega
      have hcould : (THINKING_CLOSE_VARIANTS.any fun t =>
          (buf.drop (buf.length - maxCloseLen)).isPrefixOf t) = false := by
        simp only [THINKING_CLOSE_VARIANTS, List.any_cons, List.any_nil,
          hT1, hT2, Bool.or_false, Bool.or_self]
      rw [hcould, if_neg (by simp)]
      simp only [safetyMargin, noTagEmit, noTagSect, noTagHa]
    · rw [if_neg hml]
      have h0 : buf.length - maxCloseLen = 0 := by omega
      simp only [safetyMargin, h0, List.take_zero, List.drop_zero,
        noTagEmit, noTagSect, noTagHa, List.isEmpty_nil, Bool.not_true,
        guardEv, Bool.false_eq_true, if_false]
  case in_answer =>
    have h1 : strFind buf ANSWER_CLOSE = none :=
      hfind _ (by simp [reachableTags])
    simp only [runLoopF, h1]
    by_cases hml : ANSWER_CLOSE.length < buf.length
    · rw [if_pos hml]
      have hA : (buf.drop (buf.length - ANSWER_CLOSE.length)).isPrefixOf
          ANSWER_CLOSE = false := by
        refine isPrefixOf_eq_false_of_find_none h1 ?_
        rw [List.length_drop]
        omega
      rw [hA, if_neg (by simp)]
      simp only [safetyMargin, noTagEmit, noTagSect, noTagHa]
    · rw [if_neg hml]
      have h0 : buf.length - ANSWER_CLOSE.length = 0 := by omega
      simp only [safetyMargin, h0, List.take_zero, List.drop_zero,
        noTagEmit, noTagSect, noTagHa, List.isEmpty_nil, Bool.not_true,
        guardEv, Bool.false_eq_true, if_false, Bool.or_false]

/-! ### Claim theorems -/

/-- C10: processing an empty chunk is an identity operation — for every
parser state, `process_chunk ""` returns the empty event list and leaves
the state, buffer and has-yielded-answer flag unchanged. -/
theorem c10_empty_chunk_identity (p : TagParser) :
    process_chunk p [] = ([], p) := rfl

/-- C7: feeding the three chunks `"<thi"`, `"nking>hi</thin"`,
`"king><answer>ok</answer>"` produces exactly the same event sequence as
feeding the concatenated string in one chunk — one thinking event with
content `"hi"` followed by one answer event with content `"ok"`. -/
theorem c7_split_tag_equivalence :
    feedAll [("<thi").toList, ("nking>hi</thin").toList,
        ("king><answer>ok</answer>").toList] =
      feedAll [("<thinking>hi</thinking><answer>ok</answer>").toList] ∧
    feedAll [("<thinking>hi</thinking><answer>ok</answer>").toList] =
      [⟨Section.thinking, ("hi").toList⟩,
        ⟨Section.answer, ("ok").toList⟩] := by decide

/-- C1 (counterexample): for the input
`"<thinking>partial reasoning, no closing tag"` the subsequent `flush`
does NOT yield an answer event with the full text — the buffer exceeded
the safety margin, so `process_chunk` already emitted the prefix as a
thinking event, and only the withheld tail remains for the rescue. -/
theorem c1_counterexample :
    (flush (process_chunk TagParser.init
        (("<thinking>partial reasoning, no closing tag").toList)).2).1 ≠
      [⟨Section.answer,
        ("partial reasoning, no closing tag").toList⟩] := by decide

/-- C1 (amended): on `"<thinking>partial reasoning, no closing tag"`,
`process_chunk` emits one thinking event `"partial reasoning, no "` and
keeps the trailing 11 bytes buffered; `flush` then yields exactly one
answer event whose content is the rescued residual buffer
`"closing tag"`, with no leaked tag text. -/
theorem c1_amended_theorem :
    process_chunk TagParser.init
        (("<thinking>partial reasoning, no closing tag").toList) =
      ([⟨Section.thinking, ("partial reasoning, no ").toList⟩],
        ⟨PState.in_thinking, ("closing tag").toList, [], false⟩) ∧
    (flush ⟨PState.in_thinking, ("closing tag").toList, [], false⟩).1 =
      [⟨Section.answer, ("closing tag").toList⟩] := by decide

/-- The left chunk of the C2 counterexample: `"abc"` followed by eleven
spaces (long enough to trigger a partial yield). -/
def c2Left : List Char := ("abc").toList ++ List.replicate 11 ' '

/-- The right chunk of the C2 counterexample. -/
def c2Right : List Char := ("def").toList

/-- C2 (counterexample): chunk granularity CAN change the total
reconstructed content — splitting `"abc<11 spaces>def"` after the spaces
yields `"abcdef"` (the whitespace-only partial yield is dropped) whereas
the single-chunk feed yields `"abc   def"`. -/
theorem c2_counterexample :
    transcript (feedAll [c2Left, c2Right]) ≠
      transcript (feedAll [c2Left ++ c2Right]) := by decide

/-- The tag-well-formed exemplar used for the amended C2 statement. -/
def wellFormedT : List Char :=
  ("<thinking>plan</thinking><answer>42</answer>").toList

/-- C2 (amended): the round-trip equality fails in general (whitespace
is stripped at tag boundaries and blank partial yields are dropped), but
it does hold for tag-well-formed text: splitting the 44-byte exemplar
`"<thinking>plan</thinking><answer>42</answer>"` into two chunks at any
byte offset reconstructs exactly the single-chunk transcript. -/
theorem c2_amended_theorem :
    ∀ i < 45,
      transcript (feedAll [wellFormedT.take i, wellFormedT.drop i]) =
        transcript (feedAll [wellFormedT]) := by decide

/-- Witness for C2 (amended) at the split offset 7. -/
theorem c2_witness :
    transcript (feedAll [wellFormedT.take 7, wellFormedT.drop 7]) =
      transcript (feedAll [wellFormedT]) :=
  c2_amended_theorem 7 (by decide)

/-- C3 (counterexample): when the upstream source fails immediately, the
pipeline emits NO terminal `error` SectionEvent at all (the failure is
swallowed by `generate_stream` and surfaced as inline answer text), so
"exactly one error event" is false. -/
theorem c3_counterexample :
    (generation_pipeline [] (some (("boom").toList)) true).countP
        (fun ev => decide (ev.sect = Section.error)) ≠ 1 := by decide

/-- C3 (amended): an upstream failure is caught inside `generate_stream`,
which appends one final *content* chunk carrying the inline text
`"\n\n[Error: ...]"` and stops (no retry); consequently the composed
pipeline surfaces the failure as ordinary answer-section events and
never emits an `error` SectionEvent for an upstream failure. -/
theorem c3_amended_theorem :
    (∀ (deltas : List Delta) (e : List Char),
      generate_stream deltas (some e) =
        generate_stream deltas none ++
          [StreamItem.mk ChunkKind.contentKind (errText e)]) ∧
    (∀ (deltas : List Delta) (err : Option (List Char)) (inc : Bool),
      ∀ ev ∈ generation_pipeline deltas err inc,
        ev.sect ≠ Section.error) := by
  constructor
  · intro deltas e
    simp [generate_stream]
  · intro deltas err inc ev hev
    exact (generate_with_thinking_sections hev).1

/-- Witness for C3 (amended): the first event of the failing pipeline is
an answer event, not an error event. -/
theorem c3_witness :
    (OutEv.mk Section.answer (("\n\n[E").toList)
        (errText (("boom").toList))).sect ≠ Section.error :=
  c3_amended_theorem.2 [] (some (("boom").toList)) true
    (OutEv.mk Section.answer (("\n\n[E").toList) (errText (("boom").toList)))
    (by decide)

/-- C4: the mode/tier resolver — `auto` with `simple` gives the fast
tier with thinking off; `auto` with any other query type gives the auto
tier with thinking on; `pro` always enables thinking; `fast` always
disables it. -/
theorem c4_mode_resolution :
    resolve_mode_tier (("auto").toList) QueryType.simple =
      (Tier.fast, false) ∧
    (∀ qt : QueryType, qt ≠ QueryType.simple →
      resolve_mode_tier (("auto").toList) qt = (Tier.auto, true)) ∧
    (∀ qt : QueryType,
      (resolve_mode_tier (("pro").toList) qt).2 = true) ∧
    (∀ qt : QueryType,
      (resolve_mode_tier (("fast").toList) qt).2 = false) := by
  refine ⟨by decide, ?_, ?_, ?_⟩
  · intro qt hqt
    cases qt
    · exact absurd rfl hqt
    · decide
    · decide
  · intro qt; cases qt <;> decide
  · intro qt; cases qt <;> decide

/-- Witness for C4 at `queryType = complex`. -/
theorem c4_witness :
    resolve_mode_tier (("auto").toList) QueryType.complex =
      (Tier.auto, true) :=
  c4_mode_resolution.2.1 QueryType.complex (by decide)

/-- C5: `classify_query` is total and safe-by-default — every outcome is
one of the three query types, every upstream error defaults to
`complex`, a `None` reply defaults to `complex`, and any reply whose
stripped lower-cased text contains neither `"simple"` nor `"factual"`
yields `complex`. -/
theorem c5_classify_total (r : Except (List Char) (Option (List Char))) :
    (classify_query r = QueryType.simple ∨
      classify_query r = QueryType.factual ∨
      classify_query r = QueryType.complex) ∧
    (∀ e, classify_query (Except.error e) = QueryType.complex) ∧
    classify_query (Except.ok none) = QueryType.complex ∧
    (∀ s, containsSub (pyLower (pyStrip s)) (("simple").toList) = false →
      containsSub (pyLower (pyStrip s)) (("factual").toList) = false →
      classify_query (Except.ok (some s)) = QueryType.complex) := by
  refine ⟨?_, fun e => rfl, rfl, fun s h1 h2 => ?_⟩
  · have htotal : ∀ q : QueryType, q = QueryType.simple ∨
        q = QueryType.factual ∨ q = QueryType.complex := by
      intro q
      cases q
      · exact Or.inl rfl
      · exact Or.inr (Or.inl rfl)
      · exact Or.inr (Or.inr rfl)
    exact htotal _
  · have e1 : classify_query (Except.ok (some s)) =
        (if containsSub (pyLower (pyStrip s)) (("simple").toList) = true
          then QueryType.simple
          else if containsSub (pyLower (pyStrip s)) (("factual").toList) = true
            then QueryType.factual
            else QueryType.complex) := rfl
    rw [e1, h1, h2]
    simp

/-- Witness for C5: a keyword-free reply classifies as `complex`. -/
theorem c5_witness :
    classify_query (Except.ok (some (("no keyword here").toList))) =
      QueryType.complex :=
  (c5_classify_total (Except.ok none)).2.2.2 (("no keyword here").toList)
    (by decide) (by decide)

/-- C6: boundary safety — when no complete tag (relative to the current
state) occurs in the buffer, every event emitted by `process_chunk`
consists exactly of the buffer minus its trailing `safetyMargin` bytes,
the parser retains those trailing bytes and keeps its state, and any
proper prefix of a reachable tag variant that ends the buffer is
entirely withheld (so tag text split across chunk boundaries is never
leaked into emitted content). -/
theorem c6_boundary_safety (st : PState) (buf cc : List Char) (ha : Bool)
    (h : noRelevantTag st buf = true) :
    (∀ ev ∈ (process_chunk ⟨st, [], cc, ha⟩ buf).1,
      ev.content = buf.take (buf.length - safetyMargin st)) ∧
    (process_chunk ⟨st, [], cc, ha⟩ buf).2.buffer =
      buf.drop (buf.length - safetyMargin st) ∧
    (process_chunk ⟨st, [], cc, ha⟩ buf).2.state = st ∧
    (∀ t : List Char, t ≠ [] → t <:+ buf →
      (∃ tag ∈ reachableTags st, t <+: tag ∧ t ≠ tag) →
      t <:+ (process_chunk ⟨st, [], cc, ha⟩ buf).2.buffer) := by
  have hmargin : ∀ tag ∈ reachableTags st, tag.length ≤ safetyMargin st := by
    cases st <;> decide
  by_cases hbuf : buf = []
  · subst hbuf
    refine ⟨by simp [process_chunk], by simp [process_chunk],
      by simp [process_chunk], ?_⟩
    intro t ht hsuf _
    exact absurd (List.suffix_nil.mp hsuf) ht
  · have hbe : buf.isEmpty = false := by
      cases buf
      · exact absurd rfl hbuf
      · rfl
    obtain ⟨n, hn⟩ := Nat.exists_eq_succ_of_ne_zero
      (fun h0 => hbuf (List.length_eq_zero.mp h0))
    have hrun : runLoopF buf.length st buf cc ha =
        ⟨guardEv (noTagEmit st (buf.take (buf.length - safetyMargin st)))
            (noTagSect st) (buf.take (buf.length - safetyMargin st)),
          st, buf.drop (buf.length - safetyMargin st), cc,
          noTagHa st ha
            (noTagEmit st (buf.take (buf.length - safetyMargin st)))⟩ := by
      have hn' : buf.length = n + 1 := hn
      have hstep := runLoopF_no_tag st buf cc ha n h
      rwa [← hn'] at hstep
    have hpc : process_chunk ⟨st, [], cc, ha⟩ buf =
        (guardEv (noTagEmit st (buf.take (buf.length - safetyMargin st)))
            (noTagSect st) (buf.take (buf.length - safetyMargin st)),
          ⟨st, buf.drop (buf.length - safetyMargin st), cc,
            noTagHa st ha
              (noTagEmit st (buf.take (buf.length - safetyMargin st)))⟩) := by
      simp only [process_chunk, hbe, Bool.false_eq_true, if_false,
        List.nil_append, hrun]
    rw [hpc]
    refine ⟨?_, rfl, rfl, ?_⟩
    · intro ev hev
      obtain ⟨rfl, -⟩ := mem_guardEv hev
      rfl
    · intro t ht hsuf htag
      obtain ⟨tag, htg, hpre, hne⟩ := htag
      apply suffix_drop_of_le hsuf
      have l1 : t.length < tag.length :=
        lt_of_le_of_ne hpre.length_le fun hl => hne (hpre.eq_of_length hl)
      have l2 := hmargin tag htg
      have l3 := hsuf.length_le
      omega

/-- Witness for C6: a 12-byte tag-free buffer in the `outside` state
keeps exactly its trailing 11 bytes. -/
theorem c6_witness :
    (process_chunk ⟨PState.outside, [], [], false⟩
        (("hello world!").toList)).2.buffer =
      (("hello world!").toList).drop
        ((("hello world!").toList).length - safetyMargin PState.outside) :=
  (c6_boundary_safety PState.outside (("hello world!").toList) [] false
    (by decide)).2.1

/-- The content chunk used by the C8 counterexample and witness. -/
def c8Input : List Char :=
  ("<thinking>abc</thinking><answer>xy</answer>").toList

/-- C8 (counterexample): with `include_thinking = false` the thinking
content `"abc"` is NOT accumulated (the accumulator stays empty),
although the same upstream with the flag on accumulates `"abc"` — the
orchestrator drops withheld thinking events before any accumulation. -/
theorem c8_counterexample :
    (accumulate_sections
      (generation_pipeline [⟨none, some c8Input⟩] none false)).1 = [] ∧
    (accumulate_sections
      (generation_pipeline [⟨none, some c8Input⟩] none true)).1 =
      ("abc").toList := by decide

/-- C8 (amended): when `include_thinking` is false the orchestrator
`continue`s past every thinking event (native or parsed), so no
thinking event reaches the downstream sink and the session's thinking
accumulator remains empty — the content is discarded, not accumulated. -/
theorem c8_amended_theorem (deltas : List Delta)
    (err : Option (List Char)) :
    (∀ ev ∈ generation_pipeline deltas err false,
      ev.sect ≠ Section.thinking) ∧
    (accumulate_sections (generation_pipeline deltas err false)).1 = [] := by
  have hnt : ∀ ev ∈ generation_pipeline deltas err false,
      ev.sect ≠ Section.thinking := by
    intro ev hev
    exact (generate_with_thinking_sections hev).2 rfl
  exact ⟨hnt, accumulate_fst_nil hnt⟩

/-- Witness for C8 (amended): the surviving answer event of a concrete
suppressed-thinking session is not a thinking event. -/
theorem c8_witness :
    (OutEv.mk Section.answer (("xy").toList) c8Input).sect ≠
      Section.thinking :=
  (c8_amended_theorem [⟨none, some c8Input⟩] none).1
    (OutEv.mk Section.answer (("xy").toList) c8Input) (by decide)

/-- C9: the parser never emits an event with empty content — every event
returned by `process_chunk` (from any parser state) and by `flush` has
non-empty content. -/
theorem c9_no_empty_events (p : TagParser) (chunk : List Char) :
    (∀ ev ∈ (process_chunk p chunk).1, ev.content ≠ []) ∧
    (∀ ev ∈ (flush p).1, ev.content ≠ []) :=
  ⟨fun _ hev => (process_chunk_events hev).1,
   fun _ hev => (flush_events hev).1⟩

/-- Witness for C9 on a concrete emitted event. -/
theorem c9_witness :
    (Ev.mk Section.answer (("ok").toList)).content ≠ [] :=
  (c9_no_empty_events TagParser.init (("<answer>ok</answer>").toList)).1
    (Ev.mk Section.answer (("ok").toList)) (by decide)

end SigmaAgent
